import Mathlib

/-!
Shallow embedding of `wayback-archiver` (src/src/main.rs) in Lean 4.

Time is modelled in whole seconds as `Int`.  The program's clock reads are
`Utc::now()` projected through chrono's `naive_utc()` / `naive_local()`; for a
`DateTime<Utc>` the fixed offset is zero, which we record explicitly below.

The file `src/lib.rs` (providing `archive_url`, `ArchiveError` and the
construction of a success `ArchivingResult`) is not present in the repository
snapshot; the parts of it that the pipeline depends on are modelled from the
spec where noted.
-/

namespace Wayback

/-- The `ArchivingResult` struct from lib.rs as used by main.rs: a stored
record has a `last_archived` naive timestamp (seconds), an optional archive
`url`, and an `existing_snapshot` flag. -/
structure ArchivingResult where
  last_archived : Int
  url : Option String
  existing_snapshot : Bool
deriving Repr, DecidableEq

/-- chrono: the fixed UTC offset of the `Utc` timezone, in seconds. -/
def utcOffsetSeconds : Int := 0

/-- chrono `Utc::now().naive_utc()` applied to a UTC instant `t`. -/
def naiveUtcOfUtcNow (t : Int) : Int := t

/-- chrono `Utc::now().naive_local()` applied to a UTC instant `t`:
the instant shifted by the `Utc` timezone's fixed offset. -/
def naiveLocalOfUtcNow (t : Int) : Int := t + utcOffsetSeconds

/-- Rust `char::is_whitespace`: the Unicode `White_Space` property. -/
def rustIsWhitespace (c : Char) : Bool :=
  c.toNat ∈ [0x09, 0x0A, 0x0B, 0x0C, 0x0D, 0x20, 0x85, 0xA0, 0x1680,
    0x2000, 0x2001, 0x2002, 0x2003, 0x2004, 0x2005, 0x2006, 0x2007, 0x2008,
    0x2009, 0x200A, 0x2028, 0x2029, 0x202F, 0x205F, 0x3000]

/-- Rust `str::trim`: strip whitespace from both ends of the line. -/
def rustTrim (s : String) : String :=
  ⟨((s.data.dropWhile rustIsWhitespace).reverse.dropWhile rustIsWhitespace).reverse⟩

/-- `Duration::days(30 * 6)` from main.rs line 105, in seconds. -/
def freshnessWindowSecs : Int := (30 * 6) * 86400

/-- `Duration::seconds(15)` backoff after `ArchiveError::BandwidthExceeded`. -/
def backoffSecs : Int := 15

/-- `Duration::seconds(3)` politeness cooldown after a new snapshot. -/
def cooldownSecs : Int := 3

/-- The result store: `BTreeMap<String, ArchivingResult>` modelled as an
association list strictly sorted by key. -/
abbrev Store : Type := List (String × ArchivingResult)

/-- Lexicographic strict order on character lists (`Ord for String` in
Rust: lexicographic comparison of the string's scalar values). -/
def charsLt : List Char → List Char → Bool
  | [], [] => false
  | [], _ :: _ => true
  | _ :: _, [] => false
  | a :: as, b :: bs =>
    if a.toNat < b.toNat then true
    else if a.toNat = b.toNat then charsLt as bs
    else false

/-- The `BTreeMap` key order on strings. -/
def keyLt (a b : String) : Bool := charsLt a.data b.data

/-- `BTreeMap::get`: exact-string key lookup. -/
def Store.find? : Store → String → Option ArchivingResult
  | [], _ => none
  | (k', v') :: rest, k => if k = k' then some v' else Store.find? rest k

/-- `BTreeMap::insert`: insert or overwrite, keeping keys sorted. -/
def Store.insert : Store → String → ArchivingResult → Store
  | [], k, v => [(k, v)]
  | (k', v') :: rest, k, v =>
    if keyLt k k' then (k, v) :: (k', v') :: rest
    else if k = k' then (k, v) :: rest
    else (k', v') :: Store.insert rest k v

/-- Keys strictly increasing: the invariant of a `BTreeMap` entry sequence. -/
def Store.Sorted (s : Store) : Prop :=
  List.Pairwise (fun a b : String × ArchivingResult => keyLt a.1 b.1 = true) s

/-- Outcome of one `archive_url` invocation.  Modelled from the spec:
lib.rs is absent from the snapshot; per the spec the Archive Client is an
opaque operation with outcomes succeeded (with archive url and
existing-snapshot flag), rate-limited (`BandwidthExceeded`), or other
failure.  The success record's `last_archived` is set at resolution time by
the pipeline model (spec §3: timestamp of the attempt's resolution). -/
inductive ClientResponse where
  | success (archivedUrl : Option String) (existingSnapshot : Bool)
  | bandwidthExceeded
  | otherError
deriving Repr, DecidableEq

/-- An Archive Client stub: response as a function of the URL and of the
number of earlier invocations for it inside the current attempt loop. -/
def Client : Type := String → Nat → ClientResponse

/-- Observable actions of the pipeline, in program order. -/
inductive Event where
  | skipped (url : String)
  | invoke (url : String)
  | backoffWait
  | cooldown
  | checkpoint (itemIdx : Nat)
  | finalPersist
  | finalPrint
deriving Repr, DecidableEq

/-- The attempt loop (main.rs lines 112-145) for one trimmed line, with
`fuel` bounding the number of remaining invocations (the source loops
unboundedly; `none` means fuel ran out while still rate-limited).
Returns the stored record, whether the attempt succeeded, the clock after
the loop (including backoff and cooldown sleeps), and the emitted events. -/
def attemptLoop (client : Client) (line : String) :
    Int → Nat → Nat → Option (ArchivingResult × Bool × Int × List Event)
  | _, _, 0 => none
  | time, attempt, fuel + 1 =>
    match client line attempt with
    | .success u ex =>
      let result : ArchivingResult := ⟨naiveUtcOfUtcNow time, u, ex⟩
      if ex then
        some (result, true, time, [Event.invoke line])
      else
        some (result, true, time + cooldownSecs, [Event.invoke line, Event.cooldown])
    | .bandwidthExceeded =>
      match attemptLoop client line (time + backoffSecs) (attempt + 1) fuel with
      | none => none
      | some (r, s, t, evs) =>
        some (r, s, t, Event.invoke line :: Event.backoffWait :: evs)
    | .otherError =>
      some (⟨naiveLocalOfUtcNow time, none, false⟩, false, time, [Event.invoke line])

/-- The dedup guard (main.rs lines 103-109): skip iff a record exists for
the exact trimmed line and its age is strictly below the freshness window. -/
def dedupSkips (urls : Store) (now : Int) (line : String) : Bool :=
  match urls.find? line with
  | some existing => naiveUtcOfUtcNow now - existing.last_archived < freshnessWindowSecs
  | none => false

/-- Mutable state threaded through the consumer loop of main.rs. -/
structure RunState where
  urls : Store
  numArchived : Nat
  lineIdx : Nat
  time : Int
  events : List Event
deriving Repr, DecidableEq

/-- One iteration of the consumer `for` loop (main.rs lines 91-153):
trim the dequeued line, run the dedup check, otherwise run the attempt
loop, insert the resolved record, and fire the every-25th checkpoint. -/
def processLine (client : Client) (outSet : Bool) (fuel : Nat)
    (st : RunState) (rawLine : String) : Option RunState :=
  let line := rustTrim rawLine
  if dedupSkips st.urls st.time line then
    some { st with lineIdx := st.lineIdx + 1, events := st.events ++ [Event.skipped line] }
  else
    match attemptLoop client line st.time 0 fuel with
    | none => none
    | some (result, succ, time', evs) =>
      let numArchived' := if succ then st.numArchived + 1 else st.numArchived
      let checkpointEvs :=
        if (numArchived' + 1) % 25 == 0 && outSet then
          [Event.checkpoint (st.lineIdx + 1)]
        else []
      some { urls := st.urls.insert line result,
             numArchived := numArchived',
             lineIdx := st.lineIdx + 1,
             time := time',
             events := st.events ++ evs ++ checkpointEvs }

/-- The consumer loop over the whole dequeued line sequence. -/
def runPipeline (client : Client) (outSet : Bool) (fuel : Nat) :
    RunState → List String → Option RunState
  | st, [] => some st
  | st, raw :: rest =>
    match processLine client outSet fuel st raw with
    | none => none
    | some st' => runPipeline client outSet fuel st' rest

/-- A persisted snapshot document.  Modelled from the spec: JSON
serialization is an opaque encode/decode of the result mapping, so a
well-formed document carries the ordered entry list and a malformed one
fails to decode. -/
inductive SnapshotDoc where
  | valid (entries : List (String × ArchivingResult))
  | malformed
deriving Repr, DecidableEq

/-- Rebuild a mapping from a decoded entry list (`serde_json::from_str`
materializing a `BTreeMap` by repeated insertion). -/
def fromEntries (l : List (String × ArchivingResult)) : Store :=
  l.foldl (fun m kv => m.insert kv.1 kv.2) ([] : Store)

/-- `write_results` (main.rs lines 164-176): serialize the full current
mapping to a snapshot document (truncate-and-rewrite of the file is a side
effect outside the model). -/
def write_results (results : Store) : SnapshotDoc :=
  SnapshotDoc.valid results

/-- Decoding a snapshot document.  Modelled from the spec: opaque decode;
a valid document yields its mapping, a malformed one a decode error. -/
def decodeSnapshot : SnapshotDoc → Option Store
  | .valid entries => some (fromEntries entries)
  | .malformed => none

/-- What `fs::read_to_string(out_path)` can observe. -/
inductive FsRead where
  | ok (doc : SnapshotDoc)
  | notFound
  | otherIoError
deriving Repr, DecidableEq

/-- Fatal startup outcomes of main.rs lines 40-50. -/
inductive InitError where
  | ioError
  | decodeError
  | mergeWithoutOut
deriving Repr, DecidableEq

/-- Initial store construction (main.rs lines 39-50): start empty; in
merge mode read the `--out` file, treating `NotFound` as empty, any other
I/O error or decode failure as fatal; `--merge` without `--out` panics. -/
def initialStore (merge : Bool) (outSet : Bool) (fileRead : FsRead) :
    Except InitError Store :=
  if merge then
    if outSet then
      match fileRead with
      | .ok doc =>
        match decodeSnapshot doc with
        | some s => .ok s
        | none => .error .decodeError
      | .notFound => .ok ([] : Store)
      | .otherIoError => .error .ioError
    else .error .mergeWithoutOut
  else .ok ([] : Store)

/-- URL source selection (main.rs lines 56-88): a non-empty literal URL
list is used exclusively; otherwise the URLs file if configured; otherwise
stdin lines.  The boolean records whether the URLs file was opened. -/
def selectSource (urls : List String) (urlsFile : Option (List String))
    (stdinLines : List String) : List String × Bool :=
  if urls.isEmpty then
    match urlsFile with
    | some fileLines => (fileLines, true)
    | none => (stdinLines, false)
  else (urls, false)

/-- The whole run: initial store, source selection, consumer loop, final
persist (or print when no `--out`). `Except.error` is a fatal startup
abort; `.ok none` means the attempt-loop fuel ran out. -/
def runMain (merge : Bool) (outSet : Bool) (fileRead : FsRead)
    (urlsArg : List String) (urlsFile : Option (List String))
    (stdinLines : List String) (client : Client) (startTime : Int)
    (fuel : Nat) : Except InitError (Option RunState) :=
  match initialStore merge outSet fileRead with
  | .error e => .error e
  | .ok s =>
    let lines := (selectSource urlsArg urlsFile stdinLines).1
    match runPipeline client outSet fuel
        ⟨s, 0, 0, startTime, []⟩ lines with
    | none => .ok none
    | some st =>
      .ok (some { st with
        events := st.events ++ [if outSet then Event.finalPersist else Event.finalPrint] })

/-- Is this event a checkpoint persist? -/
def Event.isCheckpoint : Event → Bool
  | .checkpoint _ => true
  | _ => false

/-- The event trace of `k` consecutive rate-limited rounds for `line`. -/
def rlRounds (line : String) : Nat → List Event
  | 0 => []
  | k + 1 => Event.invoke line :: Event.backoffWait :: rlRounds line k

/-! ### Helper lemmas -/

theorem charsLt_asymm : ∀ (a b : List Char), charsLt a b = true → charsLt b a = false := by
  intro a
  induction a with
  | nil => intro b h; cases b <;> simp [charsLt] at h ⊢
  | cons x xs ih =>
    intro b h
    cases b with
    | nil => simp [charsLt] at h
    | cons y ys =>
      simp only [charsLt] at h ⊢
      by_cases h1 : x.toNat < y.toNat
      · have hy1 : ¬ y.toNat < x.toNat := by omega
        have hy2 : ¬ y.toNat = x.toNat := by omega
        rw [if_neg hy1, if_neg hy2]
      · by_cases h2 : x.toNat = y.toNat
        · rw [if_neg h1, if_pos h2] at h
          have hy1 : ¬ y.toNat < x.toNat := by omega
          have hy2 : y.toNat = x.toNat := h2.symm
          rw [if_neg hy1, if_pos hy2]
          exact ih ys h
        · rw [if_neg h1, if_neg h2] at h
          exact absurd h (by simp)

theorem charsLt_ne : ∀ (a b : List Char), charsLt a b = true → a ≠ b := by
  intro a
  induction a with
  | nil =>
    intro b h
    cases b with
    | nil => simp [charsLt] at h
    | cons y ys => simp
  | cons x xs ih =>
    intro b h
    cases b with
    | nil => simp [charsLt] at h
    | cons y ys =>
      simp only [charsLt] at h
      by_cases h1 : x.toNat < y.toNat
      · intro he
        injection he with h2 h3
        subst h2
        omega
      · by_cases h2 : x.toNat = y.toNat
        · rw [if_neg h1, if_pos h2] at h
          intro he
          injection he with h3 h4
          exact ih ys h h4
        · rw [if_neg h1, if_neg h2] at h
          simp at h

theorem charsLt_irrefl : ∀ a : List Char, charsLt a a = false := by
  intro a
  induction a with
  | nil => rfl
  | cons x xs ih => simp [charsLt, ih]

theorem keyLt_irrefl (a : String) : keyLt a a = false := charsLt_irrefl a.data

theorem keyLt_asymm {a b : String} (h : keyLt a b = true) : keyLt b a = false :=
  charsLt_asymm a.data b.data h

theorem keyLt_ne {a b : String} (h : keyLt a b = true) : a ≠ b := by
  intro he
  exact charsLt_ne a.data b.data h (by rw [he])

theorem Store.find_insert_self (m : Store) (k : String) (v : ArchivingResult) :
    (m.insert k v).find? k = some v := by
  induction m with
  | nil => simp [Store.insert, Store.find?]
  | cons hd tl ih =>
    by_cases h1 : keyLt k hd.1
    · simp [Store.insert, Store.find?, h1]
    · by_cases h2 : k = hd.1
      · subst h2
        simp [Store.insert, keyLt_irrefl, Store.find?]
      · simp [Store.insert, Store.find?, h1, h2, ih]

theorem Store.insert_append_of_lt (m : Store) (k : String) (v : ArchivingResult)
    (h : ∀ kv ∈ m, keyLt kv.1 k = true) : m.insert k v = m ++ [(k, v)] := by
  induction m with
  | nil => simp [Store.insert]
  | cons hd tl ih =>
    have hhd : keyLt hd.1 k = true := h hd (List.mem_cons_self hd tl)
    have h1 : ¬ keyLt k hd.1 = true := by
      rw [keyLt_asymm hhd]; simp
    have h2 : ¬ k = hd.1 := fun he => keyLt_ne hhd he.symm
    simp only [Store.insert, if_neg h1, if_neg h2, List.cons_append]
    exact congrArg _ (ih (fun kv hkv => h kv (List.mem_cons_of_mem hd hkv)))

theorem fromEntries_aux (l m : Store)
    (h : Store.Sorted (m ++ l)) :
    l.foldl (fun acc kv => acc.insert kv.1 kv.2) m = m ++ l := by
  induction l generalizing m with
  | nil => simp
  | cons kv l' ih =>
    have hmem : ∀ x ∈ m, keyLt x.1 kv.1 = true := by
      intro x hx
      have := (List.pairwise_append.mp h).2.2 x hx kv (List.mem_cons_self kv l')
      exact this
    have hins : m.insert kv.1 kv.2 = m ++ [kv] :=
      Store.insert_append_of_lt m kv.1 kv.2 hmem
    have h' : Store.Sorted ((m ++ [kv]) ++ l') := by
      simpa [List.append_assoc] using h
    calc (kv :: l').foldl (fun acc x => acc.insert x.1 x.2) m
        = l'.foldl (fun acc x => acc.insert x.1 x.2) (m ++ [kv]) := by
          simp [List.foldl_cons, hins]
      _ = (m ++ [kv]) ++ l' := ih (m ++ [kv]) h'
      _ = m ++ kv :: l' := by simp [List.append_assoc]

theorem fromEntries_sorted_eq (s : Store) (hs : s.Sorted) : fromEntries s = s := by
  have := fromEntries_aux s [] (by simpa using hs)
  simpa [fromEntries] using this

theorem attemptLoop_invoke_mem (client : Client) (line : String) :
    ∀ (fuel : Nat) (time : Int) (attempt : Nat) r s t evs,
      attemptLoop client line time attempt fuel = some (r, s, t, evs) →
      Event.invoke line ∈ evs := by
  intro fuel
  induction fuel with
  | zero => intro time attempt r s t evs h; simp [attemptLoop] at h
  | succ n ih =>
    intro time attempt r s t evs h
    simp only [attemptLoop] at h
    cases hc : client line attempt with
    | success u ex =>
      rw [hc] at h
      by_cases hex : ex <;> simp [hex] at h <;> simp [← h.2.2.2]
    | bandwidthExceeded =>
      rw [hc] at h
      cases hrec : attemptLoop client line (time + backoffSecs) (attempt + 1) n with
      | none => rw [hrec] at h; simp at h
      | some v =>
        rw [hrec] at h
        obtain ⟨r', s', t', evs'⟩ := v
        simp at h
        simp [← h.2.2.2]
    | otherError =>
      rw [hc] at h
      simp at h
      simp [← h.2.2.2]

theorem attemptLoop_rl (client : Client) (line : String) (u : Option String) (ex : Bool) :
    ∀ (k a : Nat) (time : Int) (fuel : Nat),
      (∀ n, n < k → client line (a + n) = .bandwidthExceeded) →
      client line (a + k) = .success u ex →
      k < fuel →
      attemptLoop client line time a fuel =
        some (⟨naiveUtcOfUtcNow (time + backoffSecs * k), u, ex⟩, true,
              (if ex then time + backoffSecs * k
               else time + backoffSecs * k + cooldownSecs),
              rlRounds line k ++
                (if ex then [Event.invoke line]
                 else [Event.invoke line, Event.cooldown])) := by
  intro k
  induction k with
  | zero =>
    intro a time fuel _ hok hfuel
    obtain ⟨fuel', rfl⟩ : ∃ m, fuel = m + 1 :=
      ⟨fuel - 1, by omega⟩
    simp only [Nat.add_zero] at hok
    by_cases hex : ex <;>
      simp [attemptLoop, hok, hex, rlRounds, naiveUtcOfUtcNow]
  | succ k ih =>
    intro a time fuel hrl hok hfuel
    obtain ⟨fuel', rfl⟩ : ∃ m, fuel = m + 1 :=
      ⟨fuel - 1, by omega⟩
    have h0 : client line a = .bandwidthExceeded := by
      have := hrl 0 (Nat.succ_pos k)
      simpa using this
    have hrl' : ∀ n, n < k → client line (a + 1 + n) = .bandwidthExceeded := by
      intro n hn
      have := hrl (n + 1) (by omega)
      simpa [Nat.add_assoc, Nat.add_comm 1 n] using this
    have hok' : client line (a + 1 + k) = .success u ex := by
      have : a + 1 + k = a + (k + 1) := by omega
      rw [this]; exact hok
    have hrec := ih (a + 1) (time + backoffSecs) fuel' hrl' hok' (by omega)
    have harith : time + backoffSecs + backoffSecs * k = time + backoffSecs * (k + 1) := by
      ring
    simp only [attemptLoop, h0, hrec, harith, rlRounds]
    by_cases hex : ex <;> simp [hex]

theorem attemptLoop_timestamp (client : Client) (line : String) :
    ∀ (fuel : Nat) (time : Int) (attempt : Nat) r s t evs,
      attemptLoop client line time attempt fuel = some (r, s, t, evs) →
      ∃ tr, time ≤ tr ∧ tr ≤ t ∧ r.last_archived = naiveUtcOfUtcNow tr := by
  intro fuel
  induction fuel with
  | zero => intro time attempt r s t evs h; simp [attemptLoop] at h
  | succ n ih =>
    intro time attempt r s t evs h
    simp only [attemptLoop] at h
    cases hc : client line attempt with
    | success u ex =>
      rw [hc] at h
      by_cases hex : ex <;> simp [hex] at h
      · exact ⟨time, le_refl _, by simp [← h.2.2.1], by simp [← h.1]⟩
      · refine ⟨time, le_refl _, ?_, by simp [← h.1]⟩
        rw [← h.2.2.1]
        simp [cooldownSecs]
    | bandwidthExceeded =>
      rw [hc] at h
      cases hrec : attemptLoop client line (time + backoffSecs) (attempt + 1) n with
      | none => rw [hrec] at h; simp at h
      | some v =>
        rw [hrec] at h
        obtain ⟨r', s', t', evs'⟩ := v
        simp at h
        obtain ⟨tr, h1, h2, h3⟩ := ih (time + backoffSecs) (attempt + 1) r' s' t' evs' hrec
        refine ⟨tr, ?_, ?_, ?_⟩
        · have : time ≤ time + backoffSecs := by simp [backoffSecs]
          exact le_trans this h1
        · rw [← h.2.2.1]; exact h2
        · rw [← h.1]; exact h3
    | otherError =>
      rw [hc] at h
      simp at h
      refine ⟨time, le_refl _, by simp [← h.2.2.1], ?_⟩
      rw [← h.1]
      simp [naiveLocalOfUtcNow, naiveUtcOfUtcNow, utcOffsetSeconds]

theorem attemptLoop_cooldown_count (client : Client) (line : String) :
    ∀ (fuel : Nat) (time : Int) (attempt : Nat) r s t evs,
      attemptLoop client line time attempt fuel = some (r, s, t, evs) →
      evs.count Event.cooldown = (if s && !r.existing_snapshot then 1 else 0) := by
  intro fuel
  induction fuel with
  | zero => intro time attempt r s t evs h; simp [attemptLoop] at h
  | succ n ih =>
    intro time attempt r s t evs h
    simp only [attemptLoop] at h
    cases hc : client line attempt with
    | success u ex =>
      rw [hc] at h
      by_cases hex : ex <;> simp [hex] at h <;>
        simp [← h.1, h.2.1, ← h.2.2.2, hex, List.count_cons, List.count_nil]
    | bandwidthExceeded =>
      rw [hc] at h
      cases hrec : attemptLoop client line (time + backoffSecs) (attempt + 1) n with
      | none => rw [hrec] at h; simp at h
      | some v =>
        rw [hrec] at h
        obtain ⟨r', s', t', evs'⟩ := v
        simp at h
        have := ih (time + backoffSecs) (attempt + 1) r' s' t' evs' hrec
        simp [← h.1, ← h.2.1, ← h.2.2.2, List.count_cons, this]
    | otherError =>
      rw [hc] at h
      simp at h
      simp [← h.1, h.2.1, ← h.2.2.2, List.count_cons, List.count_nil]

theorem rlRounds_count_invoke (line : String) :
    ∀ k, (rlRounds line k).count (Event.invoke line) = k := by
  intro k
  induction k with
  | zero => rfl
  | succ n ih => simp [rlRounds, List.count_cons, ih]

theorem rlRounds_count_backoff (line : String) :
    ∀ k, (rlRounds line k).count Event.backoffWait = k := by
  intro k
  induction k with
  | zero => rfl
  | succ n ih => simp [rlRounds, List.count_cons, ih]

theorem processLine_eq_of_attempt (client : Client) (outSet : Bool) (fuel : Nat)
    (st : RunState) (raw : String) (r : ArchivingResult) (s : Bool) (t : Int)
    (evs : List Event)
    (hskip : dedupSkips st.urls st.time (rustTrim raw) = false)
    (hloop : attemptLoop client (rustTrim raw) st.time 0 fuel = some (r, s, t, evs)) :
    processLine client outSet fuel st raw =
      some { urls := st.urls.insert (rustTrim raw) r,
             numArchived := (if s then st.numArchived + 1 else st.numArchived),
             lineIdx := st.lineIdx + 1,
             time := t,
             events := st.events ++ evs ++
               (if ((if s then st.numArchived + 1 else st.numArchived) + 1) % 25 == 0
                   && outSet
                then [Event.checkpoint (st.lineIdx + 1)] else []) } := by
  simp [processLine, hskip, hloop]

/-! ### Claim theorems -/

/-- C1: a dequeued URL (after trimming) is skipped iff the store holds a
record under that exact string whose age is strictly below 180 days,
whatever that record's contents; on a skip the store is unchanged, the
counter and clock are unchanged, and the Archive Client is never invoked;
a record aged 180 days or more is stale (re-archived), one aged 179 days
is fresh (skipped). -/
theorem dedup_skip_iff_freshness (client : Client) (outSet : Bool) (fuel : Nat)
    (st : RunState) (raw : String) :
    (dedupSkips st.urls st.time (rustTrim raw) = true ↔
      ∃ rec, st.urls.find? (rustTrim raw) = some rec ∧
        st.time - rec.last_archived < 180 * 86400)
    ∧ (dedupSkips st.urls st.time (rustTrim raw) = true →
        processLine client outSet fuel st raw =
          some { st with lineIdx := st.lineIdx + 1,
                         events := st.events ++ [Event.skipped (rustTrim raw)] })
    ∧ (dedupSkips st.urls st.time (rustTrim raw) = false →
        ∀ st', processLine client outSet fuel st raw = some st' →
          ∃ evs, st'.events = st.events ++ evs ∧ Event.invoke (rustTrim raw) ∈ evs)
    ∧ (∀ rec, st.urls.find? (rustTrim raw) = some rec →
        ((180 * 86400 ≤ st.time - rec.last_archived →
            dedupSkips st.urls st.time (rustTrim raw) = false)
         ∧ (st.time - rec.last_archived = 179 * 86400 →
            dedupSkips st.urls st.time (rustTrim raw) = true))) := by
  refine ⟨?_, ?_, ?_, ?_⟩
  · unfold dedupSkips
    cases h : Store.find? st.urls (rustTrim raw) with
    | none => simp
    | some rec =>
      simp only [naiveUtcOfUtcNow, freshnessWindowSecs, decide_eq_true_eq]
      constructor
      · intro hlt
        exact ⟨rec, rfl, by omega⟩
      · rintro ⟨rec', heq, hlt⟩
        obtain rfl : rec = rec' := by injection heq
        omega
  · intro hskip
    simp [processLine, hskip]
  · intro hskip st' h
    simp only [processLine, hskip, Bool.false_eq_true, if_false] at h
    cases ha : attemptLoop client (rustTrim raw) st.time 0 fuel with
    | none => rw [ha] at h; simp at h
    | some v =>
      rw [ha] at h
      obtain ⟨r, s, t, evs⟩ := v
      simp only [Option.some.injEq] at h
      refine ⟨evs ++ (if (((if s then st.numArchived + 1 else st.numArchived) + 1) % 25 == 0
          && outSet) = true then [Event.checkpoint (st.lineIdx + 1)] else []), ?_, ?_⟩
      · rw [← h]
        simp
      · exact List.mem_append_left _
          (attemptLoop_invoke_mem client (rustTrim raw) fuel st.time 0 r s t evs ha)
  · intro rec hfind
    constructor
    · intro hle
      simp [dedupSkips, hfind, naiveUtcOfUtcNow, freshnessWindowSecs]
      omega
    · intro heq
      simp [dedupSkips, hfind, naiveUtcOfUtcNow, freshnessWindowSecs]
      omega

/-- C1 witness: with a record stored at time 0 under "u" and the clock at
100 seconds, the dequeued line " u " is skipped with no store mutation and
no client invocation. -/
theorem dedup_skip_iff_freshness_witness :
    processLine (fun _ _ => ClientResponse.otherError) true 1
        ⟨[("u", ⟨0, none, false⟩)], 0, 0, 100, []⟩ " u " =
      some ⟨[("u", ⟨0, none, false⟩)], 0, 1, 100, [Event.skipped "u"]⟩ := by
  have h := (dedup_skip_iff_freshness (fun _ _ => ClientResponse.otherError) true 1
      ⟨[("u", ⟨0, none, false⟩)], 0, 0, 100, []⟩ " u ").2.1 (by decide)
  rw [h]
  decide

/-- A stub Archive Client that always succeeds with a new snapshot. -/
def okClient : Client := fun _ _ => ClientResponse.success (some "a") false

/-- A stub Archive Client that always fails terminally. -/
def failClient : Client := fun _ _ => ClientResponse.otherError

/-- Fifty distinct URLs. -/
def urls50 : List String := (List.range 50).map (fun i => "u" ++ Nat.repr i)

/-- C2 counterexample: with 50 all-success URLs, no skips and `out`
configured, the intermediate persists happen after the 24th and 49th
items — not the 25th and 50th; and a terminal failure does not increment
the counter (a one-failure run ends with the counter still 0). -/
theorem checkpoint_cadence_counterexample :
    (runPipeline okClient true 1 ⟨[], 0, 0, 0, []⟩ urls50).map
        (fun st => st.events.filter Event.isCheckpoint) =
      some [Event.checkpoint 24, Event.checkpoint 49]
    ∧ (runPipeline failClient true 1 ⟨[], 0, 0, 0, []⟩ ["u"]).map
        (fun st => st.numArchived) = some 0 := by
  constructor
  · set_option maxRecDepth 10000 in decide
  · decide

/-- C2 amended: the counter is incremented only after a successful attempt
(not terminal failures, not skips), and after each non-skipped item a
checkpoint persist fires iff `out` is configured and `(counter + 1)` is
divisible by 25; hence 50 all-success URLs with `out` configured give
exactly 2 intermediate persists, after the 24th and 49th items, while 50
terminal failures give none. -/
theorem checkpoint_cadence_amended :
    (∀ (client : Client) (outSet : Bool) (fuel : Nat) (st : RunState) (raw : String)
        r s t evs,
      dedupSkips st.urls st.time (rustTrim raw) = false →
      attemptLoop client (rustTrim raw) st.time 0 fuel = some (r, s, t, evs) →
      processLine client outSet fuel st raw =
        some { urls := st.urls.insert (rustTrim raw) r,
               numArchived := (if s then st.numArchived + 1 else st.numArchived),
               lineIdx := st.lineIdx + 1,
               time := t,
               events := st.events ++ evs ++
                 (if ((if s then st.numArchived + 1 else st.numArchived) + 1) % 25 == 0
                     && outSet
                  then [Event.checkpoint (st.lineIdx + 1)] else []) })
    ∧ ((runPipeline okClient true 1 ⟨[], 0, 0, 0, []⟩ urls50).map
          (fun st => (st.numArchived, st.events.filter Event.isCheckpoint)) =
        some (50, [Event.checkpoint 24, Event.checkpoint 49]))
    ∧ ((runPipeline failClient true 1 ⟨[], 0, 0, 0, []⟩ urls50).map
          (fun st => (st.numArchived, st.events.filter Event.isCheckpoint)) =
        some (0, [])) := by
  refine ⟨?_, ?_, ?_⟩
  · intro client outSet fuel st raw r s t evs hskip hloop
    simp [processLine, hskip, hloop]
  · set_option maxRecDepth 10000 in decide
  · set_option maxRecDepth 10000 in decide

/-- C2 witness: one successful URL from an empty store updates the store,
increments the counter to 1 and fires no checkpoint. -/
theorem checkpoint_cadence_amended_witness :
    processLine okClient true 1 ⟨[], 0, 0, 0, []⟩ "u" =
      some ⟨[("u", ⟨0, some "a", false⟩)], 1, 1, 3,
            [Event.invoke "u", Event.cooldown]⟩ := by
  have h := checkpoint_cadence_amended.1 okClient true 1 ⟨[], 0, 0, 0, []⟩ "u"
      ⟨0, some "a", false⟩ true 3 [Event.invoke "u", Event.cooldown]
      (by decide) (by decide)
  rw [h]
  decide

/-- A stub Archive Client that is rate-limited twice, then succeeds. -/
def rlTwiceClient : Client := fun _ n =>
  if n < 2 then ClientResponse.bandwidthExceeded
  else ClientResponse.success (some "x") false

/-- C3: when the client is rate-limited `k` times and then succeeds, the
pipeline waits a fixed 15-unit backoff after each rate-limited response and
resubmits the same URL, with no retry cap (`k` is arbitrary, only the fuel
bound grows): the URL is submitted `k + 1` times, `k` backoff waits occur,
and the single stored record for it is the success result. -/
theorem rate_limit_retry_unbounded (client : Client) (outSet : Bool)
    (st : RunState) (raw : String) (u : Option String) (ex : Bool) (k fuel : Nat)
    (hskip : dedupSkips st.urls st.time (rustTrim raw) = false)
    (hrl : ∀ n, n < k → client (rustTrim raw) n = ClientResponse.bandwidthExceeded)
    (hok : client (rustTrim raw) k = ClientResponse.success u ex)
    (hfuel : k < fuel) :
    processLine client outSet fuel st raw =
      some { urls := st.urls.insert (rustTrim raw) ⟨st.time + 15 * k, u, ex⟩,
             numArchived := st.numArchived + 1,
             lineIdx := st.lineIdx + 1,
             time := st.time + 15 * k + (if ex then 0 else 3),
             events := st.events ++
               (rlRounds (rustTrim raw) k ++
                 (if ex then [Event.invoke (rustTrim raw)]
                  else [Event.invoke (rustTrim raw), Event.cooldown])) ++
               (if (st.numArchived + 1 + 1) % 25 == 0 && outSet
                then [Event.checkpoint (st.lineIdx + 1)] else []) }
    ∧ (rlRounds (rustTrim raw) k ++
        (if ex then [Event.invoke (rustTrim raw)]
         else [Event.invoke (rustTrim raw), Event.cooldown])).count
        (Event.invoke (rustTrim raw)) = k + 1
    ∧ (rlRounds (rustTrim raw) k ++
        (if ex then [Event.invoke (rustTrim raw)]
         else [Event.invoke (rustTrim raw), Event.cooldown])).count
        Event.backoffWait = k
    ∧ (st.urls.insert (rustTrim raw) ⟨st.time + 15 * k, u, ex⟩).find?
        (rustTrim raw) = some ⟨st.time + 15 * k, u, ex⟩ := by
  have hloop := attemptLoop_rl client (rustTrim raw) u ex k 0 st.time fuel
      (fun n hn => by simpa using hrl n hn) (by simpa using hok) hfuel
  refine ⟨?_, ?_, ?_, Store.find_insert_self _ _ _⟩
  · have h := processLine_eq_of_attempt client outSet fuel st raw
        ⟨naiveUtcOfUtcNow (st.time + backoffSecs * k), u, ex⟩ true
        (if ex then st.time + backoffSecs * k
         else st.time + backoffSecs * k + cooldownSecs)
        (rlRounds (rustTrim raw) k ++
          (if ex then [Event.invoke (rustTrim raw)]
           else [Event.invoke (rustTrim raw), Event.cooldown]))
        hskip (by rw [hloop])
    rw [h]
    by_cases hex : ex <;>
      simp [hex, naiveUtcOfUtcNow, backoffSecs, cooldownSecs]
  · by_cases hex : ex <;>
      simp [hex, List.count_append, rlRounds_count_invoke, List.count_cons]
  · by_cases hex : ex <;>
      simp [hex, List.count_append, rlRounds_count_backoff, List.count_cons]

/-- C3 witness: a stub rate-limited twice then succeeding leads to exactly
3 submissions of the URL, two 15-unit waits, and one stored success. -/
theorem rate_limit_retry_unbounded_witness :
    processLine rlTwiceClient true 3 ⟨[], 0, 0, 100, []⟩ " url " =
      some ⟨[("url", ⟨130, some "x", false⟩)], 1, 1, 133,
            [Event.invoke "url", Event.backoffWait, Event.invoke "url",
             Event.backoffWait, Event.invoke "url", Event.cooldown]⟩ := by
  have h := (rate_limit_retry_unbounded rlTwiceClient true ⟨[], 0, 0, 100, []⟩
      " url " (some "x") false 2 3 (by decide) (by decide) (by decide)
      (by decide)).1
  rw [h]
  decide

/-- C4: a non-rate-limited failure resolves terminally after exactly one
invocation — the store gets a record with `last_archived = now`, no archive
URL and `existing_snapshot = false`, the counter is not incremented, and
the run continues with the remaining URLs instead of aborting. -/
theorem terminal_failure_no_retry (client : Client) (outSet : Bool) (fuel : Nat)
    (st : RunState) (raw : String) (rest : List String)
    (hskip : dedupSkips st.urls st.time (rustTrim raw) = false)
    (hfail : client (rustTrim raw) 0 = ClientResponse.otherError) :
    processLine client outSet (fuel + 1) st raw =
      some { urls := st.urls.insert (rustTrim raw) ⟨st.time, none, false⟩,
             numArchived := st.numArchived,
             lineIdx := st.lineIdx + 1,
             time := st.time,
             events := st.events ++ [Event.invoke (rustTrim raw)] ++
               (if (st.numArchived + 1) % 25 == 0 && outSet
                then [Event.checkpoint (st.lineIdx + 1)] else []) }
    ∧ runPipeline client outSet (fuel + 1) st (raw :: rest) =
        runPipeline client outSet (fuel + 1)
          { urls := st.urls.insert (rustTrim raw) ⟨st.time, none, false⟩,
            numArchived := st.numArchived,
            lineIdx := st.lineIdx + 1,
            time := st.time,
            events := st.events ++ [Event.invoke (rustTrim raw)] ++
              (if (st.numArchived + 1) % 25 == 0 && outSet
               then [Event.checkpoint (st.lineIdx + 1)] else []) } rest := by
  have hloop : attemptLoop client (rustTrim raw) st.time 0 (fuel + 1) =
      some (⟨st.time, none, false⟩, false, st.time, [Event.invoke (rustTrim raw)]) := by
    simp [attemptLoop, hfail, naiveLocalOfUtcNow, utcOffsetSeconds]
  have h := processLine_eq_of_attempt client outSet (fuel + 1) st raw
      ⟨st.time, none, false⟩ false st.time [Event.invoke (rustTrim raw)] hskip hloop
  constructor
  · rw [h]
    simp
  · simp only [runPipeline, h]
    simp

/-- C4 witness: a concrete terminally-failing URL stores a bare record at
the current time and does not advance the counter. -/
theorem terminal_failure_no_retry_witness :
    processLine failClient true 1 ⟨[], 0, 0, 50, []⟩ " u " =
      some ⟨[("u", ⟨50, none, false⟩)], 0, 1, 50, [Event.invoke "u"]⟩ := by
  have h := (terminal_failure_no_retry failClient true 0 ⟨[], 0, 0, 50, []⟩ " u " []
      (by decide) (by decide)).1
  rw [h]
  decide

/-- C5: the `Utc` timezone has zero offset, so the failure path's
`naive_local()` equals `naive_utc()`; every stored `last_archived`
(success or terminal failure alike) is the UTC clock reading at the
attempt's resolution, and the dedup check compares records against the
current UTC clock. -/
theorem timestamps_utc :
    (∀ t : Int, naiveLocalOfUtcNow t = naiveUtcOfUtcNow t)
    ∧ (∀ (client : Client) (line : String) (fuel : Nat) (time : Int) (attempt : Nat)
         r s t evs, attemptLoop client line time attempt fuel = some (r, s, t, evs) →
         ∃ tr, time ≤ tr ∧ tr ≤ t ∧ r.last_archived = naiveUtcOfUtcNow tr)
    ∧ (∀ (urls : Store) (now : Int) (line : String),
         dedupSkips urls now line = true ↔
           ∃ rec, urls.find? line = some rec ∧
             naiveUtcOfUtcNow now - rec.last_archived < freshnessWindowSecs) := by
  refine ⟨?_, ?_, ?_⟩
  · intro t
    simp [naiveLocalOfUtcNow, naiveUtcOfUtcNow, utcOffsetSeconds]
  · intro client line fuel time attempt r s t evs h
    exact attemptLoop_timestamp client line fuel time attempt r s t evs h
  · intro urls now line
    unfold dedupSkips
    cases h : Store.find? urls line with
    | none => simp
    | some rec =>
      simp only [decide_eq_true_eq]
      constructor
      · intro hlt
        exact ⟨rec, rfl, hlt⟩
      · rintro ⟨rec', heq, hlt⟩
        obtain rfl : rec = rec' := by injection heq
        exact hlt

/-- C5 witness: the dedup check accepts a concrete record stored at UTC
time 0 when the current UTC clock reads 100. -/
theorem timestamps_utc_witness :
    dedupSkips [("u", ⟨0, none, false⟩)] 100 "u" = true :=
  (timestamps_utc.2.2 [("u", ⟨0, none, false⟩)] 100 "u").mpr
    ⟨⟨0, none, false⟩, by decide, by decide⟩

/-- C6: a resolved attempt performs the 3-unit politeness cooldown exactly
once iff it ended as a success whose result was a newly created snapshot;
an already-existing snapshot (and a terminal failure) causes no cooldown. -/
theorem cooldown_iff_new_snapshot (client : Client) (line : String)
    (fuel : Nat) (time : Int) (attempt : Nat) (r : ArchivingResult) (s : Bool)
    (t : Int) (evs : List Event)
    (h : attemptLoop client line time attempt fuel = some (r, s, t, evs)) :
    evs.count Event.cooldown = (if s && !r.existing_snapshot then 1 else 0)
    ∧ (Event.cooldown ∈ evs ↔ (s = true ∧ r.existing_snapshot = false)) := by
  have hc := attemptLoop_cooldown_count client line fuel time attempt r s t evs h
  refine ⟨hc, ?_⟩
  constructor
  · intro hmem
    have hpos : 0 < evs.count Event.cooldown := List.count_pos_iff.mpr hmem
    rw [hc] at hpos
    by_cases hs : s <;> by_cases hex : r.existing_snapshot <;>
      simp [hs, hex] at hpos ⊢
  · rintro ⟨hs, hex⟩
    apply List.count_pos_iff.mp
    rw [hc, hs, hex]
    simp

/-- C6 witness: a new-snapshot success produces exactly one cooldown. -/
theorem cooldown_iff_new_snapshot_witness :
    ([Event.invoke "u", Event.cooldown] : List Event).count Event.cooldown = 1 := by
  have h := (cooldown_iff_new_snapshot okClient "u" 1 0 0 ⟨0, some "a", false⟩ true 3
      [Event.invoke "u", Event.cooldown] (by decide)).1
  rw [h]
  decide

/-- C7: persisting any well-formed store to a snapshot and loading it back
yields a mapping equal to the original. -/
theorem persist_load_roundtrip (s : Store) (hs : s.Sorted) :
    decodeSnapshot (write_results s) = some s := by
  simp [write_results, decodeSnapshot, fromEntries_sorted_eq s hs]

/-- C7 witness: round-trip on a concrete two-entry store. -/
theorem persist_load_roundtrip_witness :
    decodeSnapshot (write_results
        [("a", ⟨1, some "x", true⟩), ("b", ⟨2, none, false⟩)]) =
      some [("a", ⟨1, some "x", true⟩), ("b", ⟨2, none, false⟩)] :=
  persist_load_roundtrip _ (by
    unfold Store.Sorted
    refine List.Pairwise.cons ?_ (List.Pairwise.cons (by simp) List.Pairwise.nil)
    intro b hb
    rw [List.mem_singleton] at hb
    subst hb
    decide)

/-- C8: in merge mode, a missing snapshot file yields the empty initial
store (not an error), while any other I/O error or a decode failure is
fatal and aborts the run before any URL is archived. -/
theorem merge_load_error_handling :
    (initialStore true true FsRead.notFound = Except.ok ([] : Store))
    ∧ (initialStore true true FsRead.otherIoError = Except.error InitError.ioError)
    ∧ (initialStore true true (FsRead.ok SnapshotDoc.malformed) =
        Except.error InitError.decodeError)
    ∧ (∀ (merge outSet : Bool) (fileRead : FsRead) (urlsArg : List String)
         (urlsFile : Option (List String)) (stdinLines : List String)
         (client : Client) (startTime : Int) (fuel : Nat) (e : InitError),
        initialStore merge outSet fileRead = Except.error e →
        runMain merge outSet fileRead urlsArg urlsFile stdinLines client
            startTime fuel = Except.error e) := by
  refine ⟨rfl, rfl, rfl, ?_⟩
  intro merge outSet fileRead urlsArg urlsFile stdinLines client startTime fuel e he
  simp [runMain, he]

/-- C8 witness: a concrete I/O error in merge mode aborts the whole run
with no state produced. -/
theorem merge_load_error_handling_witness :
    runMain true true FsRead.otherIoError ["u"] none [] okClient 0 1 =
      Except.error InitError.ioError :=
  merge_load_error_handling.2.2.2 true true FsRead.otherIoError ["u"] none []
    okClient 0 1 InitError.ioError rfl

/-- C9: exactly one URL source is used per run, by priority: a non-empty
literal URL list is used exclusively and the urls file is never opened;
otherwise the configured urls file; otherwise standard input. -/
theorem source_priority (urls : List String) (urlsFile : Option (List String))
    (stdinLines : List String) :
    (urls ≠ [] → selectSource urls urlsFile stdinLines = (urls, false))
    ∧ (urls = [] → ∀ f, urlsFile = some f →
        selectSource urls urlsFile stdinLines = (f, true))
    ∧ (urls = [] → urlsFile = none →
        selectSource urls urlsFile stdinLines = (stdinLines, false)) := by
  refine ⟨?_, ?_, ?_⟩
  · intro h
    cases urls with
    | nil => exact absurd rfl h
    | cons a as => simp [selectSource]
  · rintro rfl f rfl
    simp [selectSource]
  · rintro rfl rfl
    simp [selectSource]

/-- C9 witness: with both literal URLs and a urls file supplied, only the
literal URLs are used and the file is not opened. -/
theorem source_priority_witness :
    selectSource ["u"] (some ["f"]) ["s"] = (["u"], false) :=
  (source_priority ["u"] (some ["f"]) ["s"]).1 (by decide)

/-- C10: empty or whitespace-only lines are not filtered out: they trim to
"" and are processed exactly like the URL "" — a dedup lookup under "",
and, absent a fresh record there, a client invocation with "" whose
outcome is recorded in the store under the key "". -/
theorem whitespace_lines_processed (client : Client) (outSet : Bool) (fuel : Nat)
    (st : RunState) (raw : String) (h : rustTrim raw = "") :
    (processLine client outSet fuel st raw = processLine client outSet fuel st "")
    ∧ (dedupSkips st.urls st.time "" = true →
        processLine client outSet fuel st raw =
          some { st with lineIdx := st.lineIdx + 1,
                         events := st.events ++ [Event.skipped ""] })
    ∧ (dedupSkips st.urls st.time "" = false →
        ∀ st', processLine client outSet fuel st raw = some st' →
          (∃ evs, st'.events = st.events ++ evs ∧ Event.invoke "" ∈ evs)
          ∧ ∃ r, st'.urls.find? "" = some r) := by
  have hnil : rustTrim "" = "" := rfl
  refine ⟨?_, ?_, ?_⟩
  · simp [processLine, h, hnil]
  · intro hd
    simp [processLine, h, hd]
  · intro hd st' hp
    simp only [processLine, h, hd, Bool.false_eq_true, if_false] at hp
    cases ha : attemptLoop client "" st.time 0 fuel with
    | none => rw [ha] at hp; simp at hp
    | some v =>
      rw [ha] at hp
      obtain ⟨r, s, t, evs⟩ := v
      simp only [Option.some.injEq] at hp
      constructor
      · refine ⟨evs ++ (if (((if s then st.numArchived + 1 else st.numArchived) + 1) % 25
            == 0 && outSet) = true then [Event.checkpoint (st.lineIdx + 1)] else []),
          ?_, ?_⟩
        · rw [← hp]
          simp
        · exact List.mem_append_left _
            (attemptLoop_invoke_mem client "" fuel st.time 0 r s t evs ha)
      · refine ⟨r, ?_⟩
        rw [← hp]
        exact Store.find_insert_self _ _ _

/-- C10 witness: the whitespace-only line "   " is processed exactly like
the empty URL "". -/
theorem whitespace_lines_processed_witness :
    processLine okClient true 1 ⟨[], 0, 0, 0, []⟩ "   " =
      processLine okClient true 1 ⟨[], 0, 0, 0, []⟩ "" :=
  (whitespace_lines_processed okClient true 1 ⟨[], 0, 0, 0, []⟩ "   " (by decide)).1

end Wayback
